import Mathlib

/-!
Verification of the Texus repository's audio-cluster and application-command
core against its specification.

The shallow embedding below translates the Python sources:
* `src/discord/ext/audio/__init__.py` — `add_event_hook` and the global
  event-hook registry `Client._event_hooks`;
* `src/discord/application/command.py` — `hooked_wrapped_callback` and
  `ApplicationCommand.invoke`;
and, where a component of the repository is not present under `src/`
(node manager, node, websocket transport, event dispatch), a model built
from the specification's words, marked `Modelled from the spec:` in its
doc comment.
-/

/- ### Python value model -/

/-- A Python exception value, restricted to the kinds raised by the embedded
code.  `applicationCommandError` covers `ApplicationCommandError` and its
subclasses other than the two named ones (per `errors.py`, `CheckFailure`
and `ApplicationCommandInvokeError` both subclass it). -/
inductive PyError where
  | typeError (msg : String)
  | applicationCommandError
  | checkFailure (msg : String)
  | applicationCommandInvokeError (original : PyError)
  | genericExc (msg : String)
  deriving DecidableEq, Repr

/-- Whether an exception is an `ApplicationCommandError` (including its
subclasses `CheckFailure` and `ApplicationCommandInvokeError`), i.e. matches
the `except ApplicationCommandError` clause in `command.py`. -/
def PyError.isAppCmdError : PyError → Bool
  | .applicationCommandError => true
  | .checkFailure _ => true
  | .applicationCommandInvokeError _ => true
  | _ => false

/-- Outcome of awaiting a Python coroutine: normal return, a raised
exception, or cancellation (`asyncio.CancelledError`). -/
inductive PyOutcome (α : Type) where
  | ok (v : α)
  | error (e : PyError)
  | cancelled
  deriving DecidableEq, Repr

/- ### Event-hook registry (`src/discord/ext/audio/__init__.py`) -/

/-- A registered hook object.  Python compares hooks by object identity
(`hook not in event_hooks` uses default `__eq__`); `id` stands for the
object identity, and the two flags record the properties tested by
`callable(hook)` and `inspect.iscoroutinefunction(hook)`. -/
structure Hook where
  id : Nat
  callable : Bool
  isCoroutineFn : Bool
  deriving DecidableEq, Repr

/-- A Python class as seen by `add_event_hook`: its `__name__` and the
names of its immediate bases (`__bases__`). -/
structure PyClass where
  name : String
  bases : List String
  deriving DecidableEq, Repr

/-- The global hook registry `Client._event_hooks`: a mapping from event
name to the list of hooks, with `defaultdict(list)` semantics (a missing
key reads as the empty list). -/
abbrev Registry := List (String × List Hook)

/-- Reading `Client._event_hooks[event_name]` (a missing key reads as the
empty list, per `defaultdict(list)`); dict keys are unique, so the first
matching entry is the entry. -/
def lookupHooks : Registry → String → List Hook
  | [], _ => []
  | p :: rest, k => if p.1 == k then p.2 else lookupHooks rest k

/-- Writing back the (mutated-in-place) list for a key; inserts the key if
absent, as `defaultdict` access does. -/
def setHooks : Registry → String → List Hook → Registry
  | [], k, v => [(k, v)]
  | p :: rest, k, v =>
    if p.1 == k then (k, v) :: rest else p :: setHooks rest k v

/-- The `for hook in hooks` loop of `add_event_hook`: each hook is checked
(`not callable(hook) or not inspect.iscoroutinefunction(hook)` raises
`TypeError`, leaving the appends made so far in place) and appended unless
already present. -/
def registerLoop (hooks : List Hook) (cur : List Hook) :
    List Hook × Option PyError :=
  match hooks with
  | [] => (cur, none)
  | h :: rest =>
    if ¬ h.callable ∨ ¬ h.isCoroutineFn then
      (cur, some (.typeError "Hook is not callable or a coroutine"))
    else
      registerLoop rest (if h ∈ cur then cur else cur ++ [h])

/-- The event key used by `add_event_hook`:
`event.__name__ if event is not None else 'Generic'`. -/
def eventKey : Option PyClass → String
  | some e => e.name
  | none => "Generic"

/-- The function `add_event_hook(*hooks, event=event)` from
`src/discord/ext/audio/__init__.py`.  Returns the registry after the call
together with the exception raised, if any (mutations made before a raise
persist, as they do on the in-place Python list). -/
def add_event_hook (hooks : List Hook) (event : Option PyClass)
    (reg : Registry) : Registry × Option PyError :=
  match event with
  | some e =>
    if "Event" ∉ e.bases then
      (reg, some (.typeError "Event parameter is not of type Event or None"))
    else
      let r := registerLoop hooks (lookupHooks reg e.name)
      (setHooks reg e.name r.1, r.2)
  | none =>
    let r := registerLoop hooks (lookupHooks reg "Generic")
    (setHooks reg "Generic" r.1, r.2)

/- ### Event dispatch (EventBus publish) -/

/-- Modelled from the spec: the event-dispatch routine (`Client._dispatch_event`)
is not under `src/`; only the registration side of the registry is.  Per §4.5,
`publish(event)` invokes all handlers registered for the event's type plus the
wildcard `Generic` handlers; a handler raising an error is isolated — its error
is reported to a sink and the remaining handlers still run.  `run` gives the
outcome of awaiting each handler; the result is the list of handlers actually
invoked (in order) and the list of errors reported to the sink. -/
def runHandlers (run : Hook → PyOutcome Unit) :
    List Hook → List Hook × List PyError
  | [] => ([], [])
  | h :: rest =>
    let r := runHandlers run rest
    match run h with
    | .error e => (h :: r.1, e :: r.2)
    | _ => (h :: r.1, r.2)

/-- Modelled from the spec: `publish(event)` for an event whose class name is
`eventName` delivers to `Client._event_hooks[eventName]` and then to
`Client._event_hooks['Generic']` (§4.5, §2).  It returns normally to its
caller in all cases; handler errors appear only in the sink list. -/
def dispatch_event (reg : Registry) (eventName : String)
    (run : Hook → PyOutcome Unit) : List Hook × List PyError :=
  runHandlers run (lookupHooks reg eventName ++ lookupHooks reg "Generic")

/- ### Node cluster (NodeManager / Node) -/

/-- Connection state of a node's transport (§3, §4.1). -/
inductive ConnState where
  | connecting
  | connected
  | disconnected
  | reconnecting
  | closed
  deriving DecidableEq, Repr

/-- Errors of the cluster layer (§7). -/
inductive NodeError where
  | noAvailableNodes
  | nodeUnavailable
  deriving DecidableEq, Repr

/-- Modelled from the spec: `nodemanager.py` / `node.py` are not under
`src/`.  A Node per §3: identity, connection state, assigned guilds.
`available` is derived (`connectionState == Connected`).  The spec leaves the
exact penalty coefficients unspecified (§9: "exact coefficients … tunable
configuration, preserving only the ordering contract"), so the scalar value of
`penalty()` is carried as a field rather than recomputed from a guessed
formula. -/
structure Node where
  identifier : String
  connectionState : ConnState
  penalty : Nat
  assignedGuilds : List Nat
  deriving DecidableEq, Repr

/-- Derived availability: `connectionState == Connected` (§3). -/
def Node.available (n : Node) : Bool :=
  n.connectionState == .connected

/-- Strict lexicographic comparison on (penalty, number of assigned guilds):
the selection key of §4.3, lower is better. -/
def nodeLt (a b : Node) : Bool :=
  a.penalty < b.penalty ∨
    (a.penalty = b.penalty ∧ a.assignedGuilds.length < b.assignedGuilds.length)

/-- Modelled from the spec: best-node selection (§4.3) — among Nodes with
`available == true`, the one with lowest `penalty()`, ties broken by fewest
`assignedGuilds`, remaining ties by configuration order (the list order).
Returns the chosen node together with its index in configuration order. -/
def bestNodeIdx : List Node → Option (Nat × Node)
  | [] => none
  | n :: rest =>
    match bestNodeIdx rest with
    | none => if n.available then some (0, n) else none
    | some (j, m) =>
      if n.available then
        if nodeLt m n then some (j + 1, m) else some (0, n)
      else
        some (j + 1, m)

/-- Adding a guild to a node's assigned set (idempotent, set semantics §3). -/
def Node.addGuild (n : Node) (g : Nat) : Node :=
  if g ∈ n.assignedGuilds then n
  else { n with assignedGuilds := n.assignedGuilds ++ [g] }

/-- Modelled from the spec: `NodeManager.assign(guildID)` (§4.3) — selects the
best node, adds `guildID` to its `assignedGuilds` and returns it (with the
updated cluster); fails with `NoAvailableNodes` when no node is available. -/
def NodeManager.assign (nodes : List Node) (guildID : Nat) :
    Except NodeError (List Node × Node) :=
  match bestNodeIdx nodes with
  | none => .error .noAvailableNodes
  | some (i, n) =>
    let n' := n.addGuild guildID
    .ok (nodes.set i n', n')

/-- An outbound player-command message (§6). -/
structure OutMessage where
  guildId : Nat
  payload : String
  deriving DecidableEq, Repr

/-- Modelled from the spec: `Node.send(guildID, payload)` (§4.2) — forwards a
player command over the node's transport, failing with `NodeUnavailable`
whenever `connectionState != Connected` (in particular it fails fast during
`Reconnecting`, §5). -/
def Node.send (n : Node) (guildID : Nat) (payload : String) :
    Except NodeError OutMessage :=
  if n.connectionState = .connected then
    .ok { guildId := guildID, payload := payload }
  else
    .error .nodeUnavailable

/- ### Transport reconnect state machine and backoff (§4.1) -/

/-- Modelled from the spec: `websocket.py` (the Transport) is not under
`src/`.  Per §4.1 the transport owns the reconnect state machine and the
backoff policy: a current delay that doubles from a small base up to a capped
ceiling between reconnect attempts, reset to the base on a successful
`Connected` transition. -/
structure Transport where
  connState : ConnState
  base : Nat
  cap : Nat
  delay : Nat
  deriving DecidableEq, Repr

/-- Events driving the transport state machine (§4.1):
`handshakeOk` — handshake success while `Connecting`;
`handshakeFail` — handshake failure while `Connecting`;
`socketError` — socket error / remote close while `Connected`;
`beginReconnect` — the automatic `Disconnected → Reconnecting` transition;
`reconnectTimeout` — the backoff delay elapsed while `Reconnecting`. -/
inductive TransportEvent where
  | handshakeOk
  | handshakeFail
  | socketError
  | beginReconnect
  | reconnectTimeout
  deriving DecidableEq, Repr

/-- Modelled from the spec: one transition of the transport state machine
(§4.1).  On `Connected` the delay resets to the base; when a backoff wait
elapses (`reconnectTimeout`) the transport retries the connection and the
delay for the next attempt doubles, capped at the ceiling. -/
def Transport.step (t : Transport) : TransportEvent → Transport
  | .handshakeOk =>
    if t.connState = .connecting then
      { t with connState := .connected, delay := t.base }
    else t
  | .handshakeFail =>
    if t.connState = .connecting then
      { t with connState := .disconnected }
    else t
  | .socketError =>
    if t.connState = .connected then
      { t with connState := .disconnected }
    else t
  | .beginReconnect =>
    if t.connState = .disconnected then
      { t with connState := .reconnecting }
    else t
  | .reconnectTimeout =>
    if t.connState = .reconnecting then
      { t with connState := .connecting, delay := min (t.delay * 2) t.cap }
    else t

/-- Invariant of the backoff state: the base is positive and the current
delay lies between base and cap. -/
def Transport.Inv (t : Transport) : Prop :=
  0 < t.base ∧ t.base ≤ t.delay ∧ t.delay ≤ t.cap

/-- Run the transport over a sequence of events. -/
def Transport.run (t : Transport) : List TransportEvent → Transport
  | [] => t
  | e :: es => (t.step e).run es

/-- The sequence of backoff delays actually waited: the current delay is
recorded each time a `reconnectTimeout` fires while `Reconnecting`. -/
def Transport.delaySeq (t : Transport) : List TransportEvent → List Nat
  | [] => []
  | e :: es =>
    (if t.connState = .reconnecting ∧ e = .reconnectTimeout
     then [t.delay] else []) ++ (t.step e).delaySeq es

/- ### Application command invocation (`src/discord/application/command.py`) -/

/-- The result of one `ApplicationCommand.invoke`, together with how many
times `call_after_hooks` ran. -/
structure InvokeResult where
  outcome : PyOutcome Unit
  afterHookRuns : Nat
  deriving DecidableEq, Repr

/-- The wrapper `hooked_wrapped_callback(command, ctx, coro)` from `command.py`
(lines 65-79): awaiting the wrapped coroutine re-raises
`ApplicationCommandError`s, swallows `asyncio.CancelledError` (plain
`return`), wraps any other exception in `ApplicationCommandInvokeError`, and
in all cases runs `command.call_after_hooks(ctx)` once in the `finally`
block.  `cb` is the outcome of awaiting `coro(arg)` (the command callback
through `_invoke`). -/
def hooked_wrapped_callback (cb : PyOutcome Unit) : InvokeResult :=
  match cb with
  | .ok v => { outcome := .ok v, afterHookRuns := 1 }
  | .error e =>
    if e.isAppCmdError then
      { outcome := .error e, afterHookRuns := 1 }
    else
      { outcome := .error (.applicationCommandInvokeError e), afterHookRuns := 1 }
  | .cancelled => { outcome := .ok (), afterHookRuns := 1 }

/-- The method `ApplicationCommand.invoke(ctx)` (lines 116-120): runs `prepare`
(checks and before-hooks); when it raises, the exception propagates and the
wrapped callback never runs; otherwise the callback runs through
`hooked_wrapped_callback`.  `prep` is the outcome of `await self.prepare(ctx)`
and `cb` the outcome of awaiting the command callback. -/
def ApplicationCommand.invoke (prep : PyOutcome Unit) (cb : PyOutcome Unit) :
    InvokeResult :=
  match prep with
  | .ok _ => hooked_wrapped_callback cb
  | .error e => { outcome := .error e, afterHookRuns := 0 }
  | .cancelled => { outcome := .cancelled, afterHookRuns := 0 }

/-- The event-class check of `add_event_hook`:
`event is None or Event in event.__bases__`. -/
def EventOk : Option PyClass → Prop
  | some e => "Event" ∈ e.bases
  | none => True

instance : DecidablePred EventOk := fun o =>
  match o with
  | some e => inferInstanceAs (Decidable ("Event" ∈ e.bases))
  | none => inferInstanceAs (Decidable True)

/-- Whether a hook passes the loop's validity test
(`callable(hook) and inspect.iscoroutinefunction(hook)`). -/
def Hook.valid (h : Hook) : Prop := h.callable ∧ h.isCoroutineFn

instance : DecidablePred Hook.valid := fun h =>
  inferInstanceAs (Decidable (h.callable ∧ h.isCoroutineFn))

/-- The non-strict lexicographic selection order of §4.3: lower penalty
first, ties by fewer assigned guilds. -/
def nodeLePred (a b : Node) : Prop :=
  a.penalty < b.penalty ∨
    (a.penalty = b.penalty ∧
     a.assignedGuilds.length ≤ b.assignedGuilds.length)

/-- A node `r` at configuration index `i` is the selection the spec
demands when it is available, minimal in the (penalty, assigned-guilds)
order among all available nodes, and earliest in configuration order among
exact ties. -/
def IsBestChoice (nodes : List Node) (i : Nat) (r : Node) : Prop :=
  nodes.get? i = some r ∧ r.available = true ∧
  ∀ j m, nodes.get? j = some m → m.available = true →
    nodeLePred r m ∧
    (m.penalty = r.penalty ∧
     m.assignedGuilds.length = r.assignedGuilds.length → i ≤ j)

/- ### Registry lemmas -/

theorem lookup_setHooks_self (reg : Registry) (k : String) (v : List Hook) :
    lookupHooks (setHooks reg k v) k = v := by
  induction reg with
  | nil => simp [setHooks, lookupHooks]
  | cons p rest ih =>
    by_cases h : p.1 = k
    · simp [setHooks, lookupHooks, h]
    · simp [setHooks, lookupHooks, h, ih]

theorem lookup_setHooks_other (reg : Registry) (k k' : String)
    (v : List Hook) (hne : k' ≠ k) :
    lookupHooks (setHooks reg k v) k' = lookupHooks reg k' := by
  induction reg with
  | nil =>
    have h0 : ¬ (k = k') := fun hh => hne hh.symm
    simp [setHooks, lookupHooks, h0]
  | cons p rest ih =>
    by_cases h : p.1 = k
    · subst h
      have h0 : ¬ (p.1 = k') := fun hh => hne hh.symm
      simp [setHooks, lookupHooks, h0]
    · by_cases h' : p.1 = k'
      · simp [setHooks, lookupHooks, h, h', hne]
      · simp [setHooks, lookupHooks, h, h', ih]

theorem setHooks_setHooks (reg : Registry) (k : String) (v w : List Hook) :
    setHooks (setHooks reg k v) k w = setHooks reg k w := by
  induction reg with
  | nil => simp [setHooks]
  | cons p rest ih =>
    by_cases h : p.1 = k
    · simp [setHooks, h]
    · simp [setHooks, h, ih]

/-- If some hook in the argument list is invalid, the loop raises the
`TypeError` for hooks. -/
theorem registerLoop_err_of_bad (hooks : List Hook) (cur : List Hook)
    (h : ∃ x ∈ hooks, ¬ x.valid) :
    (registerLoop hooks cur).2 =
      some (.typeError "Hook is not callable or a coroutine") := by
  induction hooks generalizing cur with
  | nil => simp at h
  | cons a rest ih =>
    rcases h with ⟨x, hx, hbad⟩
    rcases List.mem_cons.mp hx with rfl | hx'
    · have : ¬ x.callable ∨ ¬ x.isCoroutineFn := by
        by_contra hc
        push_neg at hc
        exact hbad ⟨by simpa using hc.1, by simpa using hc.2⟩
      simp only [registerLoop, this, if_pos]
    · by_cases ha : ¬ a.callable ∨ ¬ a.isCoroutineFn
      · simp only [registerLoop, ha, if_pos]
      · simp only [registerLoop, ha, if_neg, not_false_iff]
        exact ih _ ⟨x, hx', hbad⟩

/-- Every element of the loop's resulting list was already registered or is
a valid hook that the loop appended. -/
theorem registerLoop_mem (hooks cur : List Hook) (x : Hook)
    (hx : x ∈ (registerLoop hooks cur).1) :
    x ∈ cur ∨ x.valid := by
  induction hooks generalizing cur with
  | nil => exact Or.inl (by simpa [registerLoop] using hx)
  | cons a rest ih =>
    by_cases ha : ¬ a.callable ∨ ¬ a.isCoroutineFn
    · simp only [registerLoop, ha, if_pos] at hx
      exact Or.inl hx
    · simp only [registerLoop, ha, if_neg, not_false_iff] at hx
      push_neg at ha
      rcases ih _ hx with hmem | hval
      · by_cases hac : a ∈ cur
        · simp [hac] at hmem
          exact Or.inl hmem
        · simp [hac] at hmem
          rcases hmem with h1 | h2
          · exact Or.inl h1
          · subst h2
            exact Or.inr ⟨ha.1, ha.2⟩
      · exact Or.inr hval

/-- Hooks already registered stay registered through the loop. -/
theorem registerLoop_mono (hooks cur : List Hook) (x : Hook)
    (hx : x ∈ cur) : x ∈ (registerLoop hooks cur).1 := by
  induction hooks generalizing cur with
  | nil => simpa [registerLoop] using hx
  | cons a rest ih =>
    by_cases ha : ¬ a.callable ∨ ¬ a.isCoroutineFn
    · simpa only [registerLoop, ha, if_pos] using hx
    · simp only [registerLoop, ha, if_neg, not_false_iff]
      by_cases hac : a ∈ cur
      · exact ih _ (by simpa [hac] using hx)
      · exact ih _ (by simp [hac, List.mem_append, hx])

/-- The loop either finishes cleanly or raises the hook `TypeError`. -/
theorem registerLoop_snd_cases (hooks cur : List Hook) :
    (registerLoop hooks cur).2 = none ∨
    (registerLoop hooks cur).2 =
      some (.typeError "Hook is not callable or a coroutine") := by
  induction hooks generalizing cur with
  | nil => exact Or.inl rfl
  | cons a rest ih =>
    by_cases ha : ¬ a.callable ∨ ¬ a.isCoroutineFn
    · right
      simp only [registerLoop, ha, if_pos]
    · simp only [registerLoop, ha, if_neg, not_false_iff]
      exact ih _

/-- A list of valid hooks is processed without raising. -/
theorem registerLoop_ok_of_valid (hooks cur : List Hook)
    (hv : ∀ x ∈ hooks, x.valid) : (registerLoop hooks cur).2 = none := by
  induction hooks generalizing cur with
  | nil => rfl
  | cons a rest ih =>
    have ha := hv a (List.mem_cons_self a rest)
    have ha' : ¬ (¬ a.callable ∨ ¬ a.isCoroutineFn) := by
      push_neg
      exact ⟨by simpa using ha.1, by simpa using ha.2⟩
    simp only [registerLoop, ha', if_neg, not_false_iff]
    exact ih _ (fun x hx => hv x (List.mem_cons_of_mem a hx))

/-- A valid hook processed by the loop ends up registered. -/
theorem registerLoop_mem_of_valid (hooks : List Hook) :
    ∀ (cur : List Hook) (x : Hook), (∀ y ∈ hooks, y.valid) → x ∈ hooks →
      x ∈ (registerLoop hooks cur).1 := by
  induction hooks with
  | nil =>
    intro cur x _ hx
    simp at hx
  | cons a rest ih =>
    intro cur x hv hx
    have ha := hv a (List.mem_cons_self a rest)
    have ha' : ¬ (¬ a.callable ∨ ¬ a.isCoroutineFn) := by
      push_neg
      exact ⟨by simpa using ha.1, by simpa using ha.2⟩
    simp only [registerLoop, ha', if_neg, not_false_iff]
    rcases List.mem_cons.mp hx with rfl | hx'
    · refine registerLoop_mono _ _ _ ?_
      by_cases hac : x ∈ cur <;> simp [hac]
    · exact ih _ x (fun y hy => hv y (List.mem_cons_of_mem a hy)) hx'

/-- Processing a concatenation whose first part raises no error equals
processing the second part from the first part's result. -/
theorem registerLoop_append_ok (good hs cur : List Hook)
    (hok : (registerLoop good cur).2 = none) :
    registerLoop (good ++ hs) cur =
      registerLoop hs (registerLoop good cur).1 := by
  induction good generalizing cur with
  | nil => rfl
  | cons a rest ih =>
    by_cases ha : ¬ a.callable ∨ ¬ a.isCoroutineFn
    · exfalso
      have hs2 : (registerLoop (a :: rest) cur).2 =
          some (.typeError "Hook is not callable or a coroutine") := by
        simp only [registerLoop, ha, if_pos]
      rw [hs2] at hok
      exact Option.noConfusion hok
    · simp only [List.cons_append, registerLoop, ha, if_neg, not_false_iff]
        at hok ⊢
      exact ih _ hok

/-- Calling `add_event_hook` with an accepted event parameter: registry update at
the event's key, error from the hook loop. -/
theorem add_event_hook_accepted (hooks : List Hook) (event : Option PyClass)
    (reg : Registry) (hok : EventOk event) :
    add_event_hook hooks event reg =
      (setHooks reg (eventKey event)
        (registerLoop hooks (lookupHooks reg (eventKey event))).1,
       (registerLoop hooks (lookupHooks reg (eventKey event))).2) := by
  cases event with
  | none => rfl
  | some e =>
    simp only [EventOk] at hok
    simp [add_event_hook, eventKey, hok]

/-- Calling `add_event_hook` with a rejected event parameter raises at once,
touching nothing. -/
theorem add_event_hook_rejected (hooks : List Hook) (e : PyClass)
    (reg : Registry) (hno : "Event" ∉ e.bases) :
    add_event_hook hooks (some e) reg =
      (reg, some (.typeError "Event parameter is not of type Event or None")) := by
  simp [add_event_hook, hno]

/-- C4: for every hook argument that is not a coroutine function,
`add_event_hook` raises a `TypeError` and does not add that hook to the
registry (it appears under a key afterwards only if it was already there
before the call). -/
theorem C4_non_coroutine_hook_rejected (hooks : List Hook)
    (event : Option PyClass) (reg : Registry) (h : Hook)
    (hmem : h ∈ hooks) (hbad : h.isCoroutineFn = false) :
    (∃ msg, (add_event_hook hooks event reg).2 = some (.typeError msg)) ∧
    ∀ k, h ∈ lookupHooks (add_event_hook hooks event reg).1 k →
      h ∈ lookupHooks reg k := by
  have hnv : ¬ h.valid := by
    intro hv
    have h2 : h.isCoroutineFn = true := hv.2
    rw [hbad] at h2
    exact Bool.noConfusion h2
  by_cases hok : EventOk event
  · rw [add_event_hook_accepted hooks event reg hok]
    constructor
    · exact ⟨_, registerLoop_err_of_bad hooks _ ⟨h, hmem, hnv⟩⟩
    · intro k hk
      by_cases hkk : k = eventKey event
      · subst hkk
        rw [lookup_setHooks_self] at hk
        rcases registerLoop_mem hooks _ h hk with hc | hv
        · exact hc
        · exact absurd hv hnv
      · rwa [lookup_setHooks_other _ _ _ _ hkk] at hk
  · cases event with
    | none => exact absurd trivial hok
    | some e =>
      have hno : "Event" ∉ e.bases := hok
      rw [add_event_hook_rejected hooks e reg hno]
      exact ⟨⟨_, rfl⟩, fun k hk => hk⟩

/-- C4 witness: registering a single non-coroutine hook on an empty
registry raises a `TypeError` and registers nothing. -/
theorem C4_non_coroutine_hook_rejected_witness :
    (∃ msg,
      (add_event_hook [{ id := 2, callable := true, isCoroutineFn := false }]
        none []).2 = some (.typeError msg)) ∧
    ∀ k, ({ id := 2, callable := true, isCoroutineFn := false } : Hook) ∈
        lookupHooks
          (add_event_hook [{ id := 2, callable := true, isCoroutineFn := false }]
            none []).1 k →
      ({ id := 2, callable := true, isCoroutineFn := false } : Hook) ∈
        lookupHooks [] k :=
  C4_non_coroutine_hook_rejected _ none [] _ (by simp) rfl

/-- C5: registering the same hook for the same event key a second time is a
no-op — the registry after the second call equals the registry after the
first. -/
theorem C5_duplicate_registration_noop (h : Hook) (event : Option PyClass)
    (reg : Registry) :
    (add_event_hook [h] event (add_event_hook [h] event reg).1).1 =
      (add_event_hook [h] event reg).1 := by
  by_cases hok : EventOk event
  · rw [add_event_hook_accepted _ _ _ hok]
    rw [add_event_hook_accepted _ _ _ hok]
    rw [lookup_setHooks_self, setHooks_setHooks]
    have hfix : ∀ cur : List Hook,
        (registerLoop [h] ((registerLoop [h] cur).1)).1 =
          (registerLoop [h] cur).1 := by
      intro cur
      by_cases hb : ¬ h.callable ∨ ¬ h.isCoroutineFn
      · simp only [registerLoop, hb, if_pos]
      · have hmemX : h ∈ (if h ∈ cur then cur else cur ++ [h]) := by
          by_cases hac : h ∈ cur <;> simp [hac]
        simp only [registerLoop, hb, if_neg, not_false_iff]
        simp [hmemX]
    rw [hfix]
  · cases event with
    | none => exact absurd trivial hok
    | some e =>
      have hno : "Event" ∉ e.bases := hok
      rw [add_event_hook_rejected _ e _ hno, add_event_hook_rejected _ e _ hno]

/-- C8: `add_event_hook` rejects the event argument — raising `TypeError`
with the event message and leaving the registry untouched — exactly when
the class is not a direct subclass of `Event` (so `Event` itself and
indirect descendants are rejected; `None` and direct subclasses pass the
check). -/
theorem C8_only_direct_subclasses (hooks : List Hook) (E : PyClass)
    (reg : Registry) :
    add_event_hook hooks (some E) reg =
      (reg, some (.typeError "Event parameter is not of type Event or None")) ↔
    "Event" ∉ E.bases := by
  constructor
  · intro heq
    by_contra hmem
    have hok : EventOk (some E) := hmem
    rw [add_event_hook_accepted hooks (some E) reg hok] at heq
    have hsnd := congrArg Prod.snd heq
    simp only at hsnd
    rcases registerLoop_snd_cases hooks (lookupHooks reg (eventKey (some E)))
        with hn | he
    · rw [hn] at hsnd
      exact Option.noConfusion hsnd
    · rw [he] at hsnd
      have : ("Hook is not callable or a coroutine" : String) =
          "Event parameter is not of type Event or None" := by
        injection hsnd with h1
        injection h1
      exact absurd this (by decide)
  · exact add_event_hook_rejected hooks E reg

/-- C8 witness: passing the `Event` class itself (whose only immediate base
is `object`) is rejected without touching the registry. -/
theorem C8_only_direct_subclasses_witness :
    add_event_hook [{ id := 1, callable := true, isCoroutineFn := true }]
        (some { name := "Event", bases := ["object"] }) [] =
      ([], some (.typeError "Event parameter is not of type Event or None")) :=
  (C8_only_direct_subclasses _ _ _).mpr (by decide)

/-- C9: registration is not atomic — when a list of valid hooks precedes an
invalid one, the call raises the hook `TypeError`, yet the preceding valid
hooks are all registered under the call's event key. -/
theorem C9_partial_registration (good : List Hook) (bad : Hook)
    (rest : List Hook) (event : Option PyClass) (reg : Registry)
    (hok : EventOk event) (hgood : ∀ x ∈ good, x.valid)
    (hbad : ¬ bad.valid) :
    (add_event_hook (good ++ bad :: rest) event reg).2 =
      some (.typeError "Hook is not callable or a coroutine") ∧
    ∀ x ∈ good,
      x ∈ lookupHooks (add_event_hook (good ++ bad :: rest) event reg).1
        (eventKey event) := by
  rw [add_event_hook_accepted _ _ _ hok]
  have hclean := registerLoop_ok_of_valid good
    (lookupHooks reg (eventKey event)) hgood
  rw [registerLoop_append_ok good (bad :: rest) _ hclean]
  have hbad' : ¬ bad.callable ∨ ¬ bad.isCoroutineFn := by
    by_contra hc
    push_neg at hc
    exact hbad ⟨by simpa using hc.1, by simpa using hc.2⟩
  constructor
  · simp only [registerLoop, hbad', if_pos]
  · intro x hx
    rw [lookup_setHooks_self]
    have hstop : (registerLoop (bad :: rest)
        ((registerLoop good (lookupHooks reg (eventKey event))).1)).1 =
        (registerLoop good (lookupHooks reg (eventKey event))).1 := by
      simp only [registerLoop, hbad', if_pos]
    rw [hstop]
    exact registerLoop_mem_of_valid good _ x hgood hx

/-- C9 witness: one valid hook followed by an invalid one — the call raises
yet the valid hook ends up registered under `Generic`. -/
theorem C9_partial_registration_witness :
    (add_event_hook
        [{ id := 1, callable := true, isCoroutineFn := true },
         { id := 2, callable := true, isCoroutineFn := false }] none []).2 =
      some (.typeError "Hook is not callable or a coroutine") ∧
    ∀ x ∈ [({ id := 1, callable := true, isCoroutineFn := true } : Hook)],
      x ∈ lookupHooks
        (add_event_hook
          [{ id := 1, callable := true, isCoroutineFn := true },
           { id := 2, callable := true, isCoroutineFn := false }] none []).1
        (eventKey none) :=
  C9_partial_registration
    [{ id := 1, callable := true, isCoroutineFn := true }]
    { id := 2, callable := true, isCoroutineFn := false } [] none []
    trivial (by decide) (by decide)

/- ### Dispatch lemmas and claims C2, C3 -/

/-- Every handler in the delivery list is invoked, whatever each handler's
outcome is. -/
theorem runHandlers_fst (run : Hook → PyOutcome Unit) (hs : List Hook) :
    (runHandlers run hs).1 = hs := by
  induction hs with
  | nil => rfl
  | cons h rest ih =>
    simp only [runHandlers]
    cases run h <;> simp [ih]

/-- A failing handler's error is reported to the sink. -/
theorem runHandlers_err (run : Hook → PyOutcome Unit) (hs : List Hook)
    (h : Hook) (e : PyError) (hmem : h ∈ hs) (herr : run h = .error e) :
    e ∈ (runHandlers run hs).2 := by
  induction hs with
  | nil => simp at hmem
  | cons a rest ih =>
    rcases List.mem_cons.mp hmem with rfl | hmem'
    · simp only [runHandlers, herr]
      exact List.mem_cons_self e _
    · simp only [runHandlers]
      cases hra : run a <;> simp [ih hmem']

/-- The registry keeps each key's hook list free of duplicates: the
registration loop preserves `Nodup`. -/
theorem registerLoop_nodup (hooks : List Hook) :
    ∀ cur : List Hook, cur.Nodup → ((registerLoop hooks cur).1).Nodup := by
  induction hooks with
  | nil =>
    intro cur hc
    simpa [registerLoop] using hc
  | cons a rest ih =>
    intro cur hc
    by_cases ha : ¬ a.callable ∨ ¬ a.isCoroutineFn
    · simpa only [registerLoop, ha, if_pos] using hc
    · simp only [registerLoop, ha, if_neg, not_false_iff]
      refine ih _ ?_
      by_cases hac : a ∈ cur
      · simpa [hac] using hc
      · simp only [hac, if_neg, not_false_iff]
        simpa [List.nodup_append, hac] using hc

/-- Registration via `add_event_hook` preserves the no-duplicates invariant of the
registry. -/
theorem add_event_hook_nodup (hooks : List Hook) (event : Option PyClass)
    (reg : Registry) (hreg : ∀ k, (lookupHooks reg k).Nodup) :
    ∀ k, (lookupHooks (add_event_hook hooks event reg).1 k).Nodup := by
  intro k
  by_cases hok : EventOk event
  · rw [add_event_hook_accepted _ _ _ hok]
    by_cases hkk : k = eventKey event
    · subst hkk
      rw [lookup_setHooks_self]
      exact registerLoop_nodup hooks _ (hreg _)
    · rw [lookup_setHooks_other _ _ _ _ hkk]
      exact hreg k
  · cases event with
    | none => exact absurd trivial hok
    | some e =>
      rw [add_event_hook_rejected hooks e reg hok]
      exact hreg k

/-- C2: publishing one event invokes each handler registered for the
event's type exactly once and each `Generic` handler exactly once, and no
handler registered only under other keys. -/
theorem C2_each_handler_once (reg : Registry) (en : String)
    (run : Hook → PyOutcome Unit) (h : Hook)
    (hnd : ∀ k, (lookupHooks reg k).Nodup) (_hgen : en ≠ "Generic") :
    List.count h (dispatch_event reg en run).1 =
      (if h ∈ lookupHooks reg en then 1 else 0) +
      (if h ∈ lookupHooks reg "Generic" then 1 else 0) := by
  unfold dispatch_event
  rw [runHandlers_fst, List.count_append]
  congr 1
  · by_cases hm : h ∈ lookupHooks reg en
    · simp [hm, List.count_eq_one_of_mem (hnd en) hm]
    · simp [hm, List.count_eq_zero_of_not_mem hm]
  · by_cases hm : h ∈ lookupHooks reg "Generic"
    · simp [hm, List.count_eq_one_of_mem (hnd "Generic") hm]
    · simp [hm, List.count_eq_zero_of_not_mem hm]

/-- C2 witness (the spec's §8 scenario): two handlers on `TrackEndEvent`
and one `Generic` handler; publishing one `TrackEndEvent` runs the first
handler exactly once. -/
theorem C2_each_handler_once_witness :
    List.count ({ id := 1, callable := true, isCoroutineFn := true } : Hook)
      (dispatch_event
        [("TrackEndEvent",
           [{ id := 1, callable := true, isCoroutineFn := true },
            { id := 2, callable := true, isCoroutineFn := true }]),
         ("Generic", [{ id := 3, callable := true, isCoroutineFn := true }])]
        "TrackEndEvent" (fun _ => .ok ())).1 =
      (if ({ id := 1, callable := true, isCoroutineFn := true } : Hook) ∈
          lookupHooks
            [("TrackEndEvent",
               [{ id := 1, callable := true, isCoroutineFn := true },
                { id := 2, callable := true, isCoroutineFn := true }]),
             ("Generic",
               [{ id := 3, callable := true, isCoroutineFn := true }])]
            "TrackEndEvent" then 1 else 0) +
      (if ({ id := 1, callable := true, isCoroutineFn := true } : Hook) ∈
          lookupHooks
            [("TrackEndEvent",
               [{ id := 1, callable := true, isCoroutineFn := true },
                { id := 2, callable := true, isCoroutineFn := true }]),
             ("Generic",
               [{ id := 3, callable := true, isCoroutineFn := true }])]
            "Generic" then 1 else 0) :=
  C2_each_handler_once _ "TrackEndEvent" _ _
    (by
      intro k
      simp only [lookupHooks]
      split
      · decide
      · split
        · decide
        · exact List.nodup_nil)
    (by decide)

/-- C3: a handler raising an error does not prevent the other matching
handlers from being invoked — the delivery list does not depend on handler
outcomes — and the error is reported to the sink rather than re-raised
(`dispatch_event` returns it as data to its caller). -/
theorem C3_handler_error_isolated (reg : Registry) (en : String)
    (run : Hook → PyOutcome Unit) :
    (dispatch_event reg en run).1 =
      lookupHooks reg en ++ lookupHooks reg "Generic" ∧
    ∀ h e, h ∈ (dispatch_event reg en run).1 → run h = .error e →
      e ∈ (dispatch_event reg en run).2 := by
  refine ⟨runHandlers_fst run _, ?_⟩
  intro h e hmem herr
  unfold dispatch_event at hmem ⊢
  rw [runHandlers_fst] at hmem
  exact runHandlers_err run _ h e hmem herr

/-- C3 witness: the first of three matching handlers fails; all three are
still invoked and the error lands in the sink. -/
theorem C3_handler_error_isolated_witness :
    (dispatch_event
        [("TrackEndEvent",
           [{ id := 1, callable := true, isCoroutineFn := true },
            { id := 2, callable := true, isCoroutineFn := true }]),
         ("Generic", [{ id := 3, callable := true, isCoroutineFn := true }])]
        "TrackEndEvent"
        (fun h => if h.id = 1 then .error (.genericExc "boom") else .ok ())).1 =
      lookupHooks
        [("TrackEndEvent",
           [{ id := 1, callable := true, isCoroutineFn := true },
            { id := 2, callable := true, isCoroutineFn := true }]),
         ("Generic", [{ id := 3, callable := true, isCoroutineFn := true }])]
        "TrackEndEvent" ++
      lookupHooks
        [("TrackEndEvent",
           [{ id := 1, callable := true, isCoroutineFn := true },
            { id := 2, callable := true, isCoroutineFn := true }]),
         ("Generic", [{ id := 3, callable := true, isCoroutineFn := true }])]
        "Generic" ∧
    PyError.genericExc "boom" ∈
      (dispatch_event
        [("TrackEndEvent",
           [{ id := 1, callable := true, isCoroutineFn := true },
            { id := 2, callable := true, isCoroutineFn := true }]),
         ("Generic", [{ id := 3, callable := true, isCoroutineFn := true }])]
        "TrackEndEvent"
        (fun h => if h.id = 1 then .error (.genericExc "boom") else .ok ())).2 :=
  ⟨(C3_handler_error_isolated _ _ _).1,
   (C3_handler_error_isolated _ _ _).2
     { id := 1, callable := true, isCoroutineFn := true }
     (.genericExc "boom") (by decide) (by decide)⟩

/- ### Node selection lemmas and claim C1 -/

theorem nodeLt_iff (a b : Node) :
    nodeLt a b = true ↔
      (a.penalty < b.penalty ∨
       (a.penalty = b.penalty ∧
        a.assignedGuilds.length < b.assignedGuilds.length)) := by
  simp [nodeLt]

theorem nodeLePred_refl (a : Node) : nodeLePred a a := by
  unfold nodeLePred
  omega

theorem nodeLePred_trans {a b c : Node} (h1 : nodeLePred a b)
    (h2 : nodeLePred b c) : nodeLePred a c := by
  unfold nodeLePred at *
  omega

theorem nodeLePred_of_lt {a b : Node} (h : nodeLt a b = true) :
    nodeLePred a b := by
  rw [nodeLt_iff] at h
  unfold nodeLePred
  omega

theorem nodeLePred_of_not_lt {a b : Node} (h : ¬ nodeLt a b = true) :
    nodeLePred b a := by
  rw [nodeLt_iff] at h
  unfold nodeLePred
  omega

/-- The selected pair is a real entry of the configuration list and is
available. -/
theorem bestNodeIdx_get (nodes : List Node) :
    ∀ i r, bestNodeIdx nodes = some (i, r) →
      nodes.get? i = some r ∧ r.available = true := by
  induction nodes with
  | nil =>
    intro i r hb
    simp [bestNodeIdx] at hb
  | cons n rest ih =>
    intro i r hb
    cases hrest : bestNodeIdx rest with
    | none =>
      simp only [bestNodeIdx, hrest] at hb
      by_cases hn : n.available = true
      · simp only [hn, if_pos, Option.some.injEq, Prod.mk.injEq] at hb
        obtain ⟨rfl, rfl⟩ := hb
        exact ⟨rfl, hn⟩
      · simp [hn] at hb
    | some p =>
      obtain ⟨j0, m0⟩ := p
      obtain ⟨hg0, hav0⟩ := ih j0 m0 hrest
      simp only [bestNodeIdx, hrest] at hb
      by_cases hn : n.available = true
      · by_cases hlt : nodeLt m0 n = true
        · simp only [hn, hlt, if_pos, Option.some.injEq, Prod.mk.injEq] at hb
          obtain ⟨rfl, rfl⟩ := hb
          exact ⟨hg0, hav0⟩
        · simp only [hn, hlt, if_pos, if_neg, not_false_iff,
            Option.some.injEq, Prod.mk.injEq] at hb
          obtain ⟨rfl, rfl⟩ := hb
          exact ⟨rfl, hn⟩
      · simp only [hn, if_neg, not_false_iff, Option.some.injEq,
          Prod.mk.injEq] at hb
        obtain ⟨rfl, rfl⟩ := hb
        exact ⟨hg0, hav0⟩

/-- No node is selected exactly when no node is available. -/
theorem bestNodeIdx_eq_none_iff (nodes : List Node) :
    bestNodeIdx nodes = none ↔ ∀ n ∈ nodes, n.available = false := by
  induction nodes with
  | nil => simp [bestNodeIdx]
  | cons n rest ih =>
    cases hrest : bestNodeIdx rest with
    | none =>
      have hall := ih.mp hrest
      simp only [bestNodeIdx, hrest]
      constructor
      · intro h m hm
        by_cases hn : n.available = true
        · simp [hn] at h
        · rcases List.mem_cons.mp hm with rfl | hm'
          · exact Bool.eq_false_iff.mpr hn
          · exact hall m hm'
      · intro h
        have hn := h n (List.mem_cons_self n rest)
        simp [hn]
    | some p =>
      obtain ⟨j0, m0⟩ := p
      obtain ⟨hg0, hav0⟩ := bestNodeIdx_get rest j0 m0 hrest
      simp only [bestNodeIdx, hrest]
      constructor
      · intro h
        exfalso
        by_cases hn : n.available = true <;>
          by_cases hlt : nodeLt m0 n = true <;>
          simp [hn, hlt] at h
      · intro h
        exfalso
        have := h m0 (List.mem_cons_of_mem n (List.get?_mem hg0))
        rw [hav0] at this
        exact Bool.noConfusion this

/-- The selected node is minimal in the selection order among available
nodes, and earliest in configuration order among exact ties. -/
theorem bestNodeIdx_min (nodes : List Node) :
    ∀ i r, bestNodeIdx nodes = some (i, r) →
      ∀ j m, nodes.get? j = some m → m.available = true →
        nodeLePred r m ∧
        (m.penalty = r.penalty ∧
         m.assignedGuilds.length = r.assignedGuilds.length → i ≤ j) := by
  induction nodes with
  | nil =>
    intro i r hb
    simp [bestNodeIdx] at hb
  | cons n rest ih =>
    intro i r hb
    cases hrest : bestNodeIdx rest with
    | none =>
      have hall := (bestNodeIdx_eq_none_iff rest).mp hrest
      simp only [bestNodeIdx, hrest] at hb
      by_cases hn : n.available = true
      · simp only [hn, if_pos, Option.some.injEq, Prod.mk.injEq] at hb
        obtain ⟨rfl, rfl⟩ := hb
        intro j m hj hm
        cases j with
        | zero =>
          obtain rfl : n = m := by simpa using hj
          exact ⟨nodeLePred_refl n, fun _ => Nat.le_refl 0⟩
        | succ j' =>
          exfalso
          have := hall m (List.get?_mem (by simpa using hj))
          rw [hm] at this
          exact Bool.noConfusion this
      · simp [hn] at hb
    | some p =>
      obtain ⟨j0, m0⟩ := p
      simp only [bestNodeIdx, hrest] at hb
      by_cases hn : n.available = true
      · by_cases hlt : nodeLt m0 n = true
        · simp only [hn, hlt, if_pos, Option.some.injEq, Prod.mk.injEq] at hb
          obtain ⟨rfl, rfl⟩ := hb
          intro j m hj hm
          cases j with
          | zero =>
            obtain rfl : n = m := by simpa using hj
            refine ⟨nodeLePred_of_lt hlt, fun htie => ?_⟩
            rw [nodeLt_iff] at hlt
            omega
          | succ j' =>
            obtain ⟨hle, htie⟩ := ih j0 m0 hrest j' m (by simpa using hj) hm
            exact ⟨hle, fun ht => Nat.succ_le_succ (htie ht)⟩
        · simp only [hn, hlt, if_pos, if_neg, not_false_iff,
            Option.some.injEq, Prod.mk.injEq] at hb
          obtain ⟨rfl, rfl⟩ := hb
          intro j m hj hm
          cases j with
          | zero =>
            obtain rfl : n = m := by simpa using hj
            exact ⟨nodeLePred_refl n, fun _ => Nat.le_refl 0⟩
          | succ j' =>
            obtain ⟨hle, _⟩ := ih j0 m0 hrest j' m (by simpa using hj) hm
            exact ⟨nodeLePred_trans (nodeLePred_of_not_lt hlt) hle,
              fun _ => Nat.zero_le _⟩
      · simp only [hn, if_neg, not_false_iff, Option.some.injEq,
          Prod.mk.injEq] at hb
        obtain ⟨rfl, rfl⟩ := hb
        intro j m hj hm
        cases j with
        | zero =>
          exfalso
          obtain rfl : n = m := by simpa using hj
          exact hn hm
        | succ j' =>
          obtain ⟨hle, htie⟩ := ih j0 r hrest j' m (by simpa using hj) hm
          exact ⟨hle, fun ht => Nat.succ_le_succ (htie ht)⟩

/-- C1: with at least one available node, `NodeManager.assign` returns the
available node with lowest penalty, ties broken by fewest assigned guilds
and then configuration order, with the guild recorded on it; with none, it
fails with `NoAvailableNodes`. -/
theorem C1_assign_best_available (nodes : List Node) (g : Nat) :
    ((∃ n ∈ nodes, n.available = true) →
      ∃ i r, bestNodeIdx nodes = some (i, r) ∧ IsBestChoice nodes i r ∧
        NodeManager.assign nodes g =
          .ok (nodes.set i (r.addGuild g), r.addGuild g)) ∧
    ((∀ n ∈ nodes, n.available = false) →
      NodeManager.assign nodes g = .error .noAvailableNodes) := by
  constructor
  · rintro ⟨n, hn, hav⟩
    cases hbest : bestNodeIdx nodes with
    | none =>
      exfalso
      have := (bestNodeIdx_eq_none_iff nodes).mp hbest n hn
      rw [hav] at this
      exact Bool.noConfusion this
    | some p =>
      obtain ⟨i, r⟩ := p
      obtain ⟨hget, hravail⟩ := bestNodeIdx_get nodes i r hbest
      refine ⟨i, r, rfl, ⟨hget, hravail, bestNodeIdx_min nodes i r hbest⟩, ?_⟩
      simp [NodeManager.assign, hbest]
  · intro hall
    have hnone : bestNodeIdx nodes = none :=
      (bestNodeIdx_eq_none_iff nodes).mpr hall
    simp [NodeManager.assign, hnone]

/-- C1 witness: three configured nodes — an available one with penalty 5,
an available one with penalty 3 and a disconnected one with penalty 1 —
assign picks the penalty-3 node and records the guild on it. -/
theorem C1_assign_best_available_witness :
    ∃ i r,
      bestNodeIdx
        [{ identifier := "a", connectionState := .connected, penalty := 5,
           assignedGuilds := [] },
         { identifier := "b", connectionState := .connected, penalty := 3,
           assignedGuilds := [] },
         { identifier := "c", connectionState := .disconnected, penalty := 1,
           assignedGuilds := [] }] = some (i, r) ∧
      IsBestChoice
        [{ identifier := "a", connectionState := .connected, penalty := 5,
           assignedGuilds := [] },
         { identifier := "b", connectionState := .connected, penalty := 3,
           assignedGuilds := [] },
         { identifier := "c", connectionState := .disconnected, penalty := 1,
           assignedGuilds := [] }] i r ∧
      NodeManager.assign
        [{ identifier := "a", connectionState := .connected, penalty := 5,
           assignedGuilds := [] },
         { identifier := "b", connectionState := .connected, penalty := 3,
           assignedGuilds := [] },
         { identifier := "c", connectionState := .disconnected, penalty := 1,
           assignedGuilds := [] }] 7 =
        .ok
          ([{ identifier := "a", connectionState := .connected, penalty := 5,
              assignedGuilds := [] },
            { identifier := "b", connectionState := .connected, penalty := 3,
              assignedGuilds := [] },
            { identifier := "c", connectionState := .disconnected,
              penalty := 1, assignedGuilds := [] }].set i (r.addGuild 7),
           r.addGuild 7) :=
  (C1_assign_best_available _ 7).1
    ⟨{ identifier := "b", connectionState := .connected, penalty := 3,
       assignedGuilds := [] }, by decide, rfl⟩

/- ### Claims C7, C10 -/

/-- C7: `Node.send` fails with `NodeUnavailable` whenever the connection
state is not `Connected` (so it fails fast during `Reconnecting`), and
forwards the player command when `Connected`. -/
theorem C7_send_fails_unless_connected (n : Node) (g : Nat) (p : String) :
    (n.connectionState ≠ .connected →
      n.send g p = .error .nodeUnavailable) ∧
    (n.connectionState = .connected →
      n.send g p = .ok { guildId := g, payload := p }) := by
  constructor <;> intro h <;> simp [Node.send, h]

/-- C7 witness: a reconnecting node rejects a send; a connected node
forwards it. -/
theorem C7_send_fails_unless_connected_witness :
    Node.send
        { identifier := "n1", connectionState := .reconnecting, penalty := 0,
          assignedGuilds := [] } 9 "play" = .error .nodeUnavailable ∧
    Node.send
        { identifier := "n2", connectionState := .connected, penalty := 0,
          assignedGuilds := [] } 9 "play" =
      .ok { guildId := 9, payload := "play" } :=
  ⟨(C7_send_fails_unless_connected _ 9 "play").1 (by decide),
   (C7_send_fails_unless_connected _ 9 "play").2 rfl⟩

/- ### Transport backoff lemmas and claim C6 -/

theorem Transport.step_base (t : Transport) (e : TransportEvent) :
    (t.step e).base = t.base := by
  cases e <;> simp only [Transport.step] <;> split <;> rfl

theorem Transport.step_cap (t : Transport) (e : TransportEvent) :
    (t.step e).cap = t.cap := by
  cases e <;> simp only [Transport.step] <;> split <;> rfl

theorem Transport.Inv_step (t : Transport) (e : TransportEvent)
    (h : t.Inv) : (t.step e).Inv := by
  obtain ⟨h1, h2, h3⟩ := h
  cases e with
  | handshakeOk =>
    simp only [Transport.step]
    split
    · exact ⟨h1, Nat.le_refl _, Nat.le_trans h2 h3⟩
    · exact ⟨h1, h2, h3⟩
  | handshakeFail =>
    simp only [Transport.step]
    split
    · exact ⟨h1, h2, h3⟩
    · exact ⟨h1, h2, h3⟩
  | socketError =>
    simp only [Transport.step]
    split
    · exact ⟨h1, h2, h3⟩
    · exact ⟨h1, h2, h3⟩
  | beginReconnect =>
    simp only [Transport.step]
    split
    · exact ⟨h1, h2, h3⟩
    · exact ⟨h1, h2, h3⟩
  | reconnectTimeout =>
    simp only [Transport.step]
    split
    · refine ⟨h1, ?_, ?_⟩
      · show t.base ≤ min (t.delay * 2) t.cap
        omega
      · show min (t.delay * 2) t.cap ≤ t.cap
        omega
    · exact ⟨h1, h2, h3⟩

/-- Any event other than a successful handshake never decreases the
current backoff delay. -/
theorem Transport.delay_mono (t : Transport) (e : TransportEvent)
    (hInv : t.Inv) (he : e ≠ .handshakeOk) :
    t.delay ≤ (t.step e).delay := by
  obtain ⟨h1, h2, h3⟩ := hInv
  cases e with
  | handshakeOk => exact absurd rfl he
  | handshakeFail => simp only [Transport.step]; split <;> simp
  | socketError => simp only [Transport.step]; split <;> simp
  | beginReconnect => simp only [Transport.step]; split <;> simp
  | reconnectTimeout =>
    simp only [Transport.step]
    split
    · show t.delay ≤ min (t.delay * 2) t.cap
      omega
    · exact Nat.le_refl _

/-- Without a successful handshake, every delay waited is at least the
starting delay and at most the cap. -/
theorem Transport.delaySeq_bounds (es : List TransportEvent) :
    ∀ t : Transport, t.Inv → TransportEvent.handshakeOk ∉ es →
      ∀ d ∈ t.delaySeq es, t.delay ≤ d ∧ d ≤ t.cap := by
  induction es with
  | nil =>
    intro t _ _ d hd
    simp [Transport.delaySeq] at hd
  | cons e es ih =>
    intro t hInv hne d hd
    have hne' : TransportEvent.handshakeOk ∉ es :=
      fun h => hne (List.mem_cons_of_mem _ h)
    have hee : e ≠ .handshakeOk :=
      fun h => hne (h ▸ List.mem_cons_self e es)
    simp only [Transport.delaySeq] at hd
    rcases List.mem_append.mp hd with h1 | h2
    · by_cases hc : t.connState = .reconnecting ∧ e = .reconnectTimeout
      · rw [if_pos hc] at h1
        simp only [List.mem_singleton] at h1
        subst h1
        exact ⟨Nat.le_refl _, hInv.2.2⟩
      · rw [if_neg hc] at h1
        simp at h1
    · have hrec := ih (t.step e) (t.Inv_step e hInv) hne' d h2
      refine ⟨Nat.le_trans (t.delay_mono e hInv hee) hrec.1, ?_⟩
      rw [← t.step_cap e]
      exact hrec.2

/-- Without a successful handshake, the waited delays are non-decreasing. -/
theorem Transport.delaySeq_chain (es : List TransportEvent) :
    ∀ t : Transport, t.Inv → TransportEvent.handshakeOk ∉ es →
      List.Chain' (· ≤ ·) (t.delaySeq es) := by
  induction es with
  | nil =>
    intro t _ _
    simp [Transport.delaySeq]
  | cons e es ih =>
    intro t hInv hne
    have hne' : TransportEvent.handshakeOk ∉ es :=
      fun h => hne (List.mem_cons_of_mem _ h)
    have hee : e ≠ .handshakeOk :=
      fun h => hne (h ▸ List.mem_cons_self e es)
    simp only [Transport.delaySeq]
    by_cases hc : t.connState = .reconnecting ∧ e = .reconnectTimeout
    · rw [if_pos hc, List.singleton_append]
      refine List.chain'_cons'.mpr ⟨?_, ih (t.step e) (t.Inv_step e hInv) hne'⟩
      intro y hy
      have hym := List.mem_of_mem_head? hy
      have hb := (Transport.delaySeq_bounds es (t.step e)
        (t.Inv_step e hInv) hne' y hym).1
      exact Nat.le_trans (t.delay_mono e hInv hee) hb
    · rw [if_neg hc, List.nil_append]
      exact ih (t.step e) (t.Inv_step e hInv) hne'

/-- C6: across consecutive failed reconnect attempts (no successful
handshake in the trace) the waited backoff delays are monotonically
non-decreasing and bounded by the cap; a successful `Connected` transition
resets the delay to the base. -/
theorem C6_backoff_monotone_capped_reset (t : Transport)
    (es : List TransportEvent) (hInv : t.Inv) :
    (TransportEvent.handshakeOk ∉ es →
      List.Chain' (· ≤ ·) (t.delaySeq es) ∧
      ∀ d ∈ t.delaySeq es, d ≤ t.cap) ∧
    (t.connState = .connecting →
      (t.step .handshakeOk).connState = .connected ∧
      (t.step .handshakeOk).delay = t.base) := by
  constructor
  · intro hne
    refine ⟨Transport.delaySeq_chain es t hInv hne, fun d hd => ?_⟩
    exact (Transport.delaySeq_bounds es t hInv hne d hd).2
  · intro hconn
    simp [Transport.step, hconn]

/-- C6 witness: from a reconnecting transport with base 1 and cap 8, two
failed attempts wait 1 then 2 (non-decreasing, under the cap of 8); a
connecting transport with an inflated delay resets to base 1 on handshake
success. -/
theorem C6_backoff_monotone_capped_reset_witness :
    (List.Chain' (· ≤ ·)
      (Transport.delaySeq
        { connState := .reconnecting, base := 1, cap := 8, delay := 1 }
        [.reconnectTimeout, .handshakeFail, .beginReconnect,
         .reconnectTimeout]) ∧
     ∀ d ∈ Transport.delaySeq
        { connState := .reconnecting, base := 1, cap := 8, delay := 1 }
        [.reconnectTimeout, .handshakeFail, .beginReconnect,
         .reconnectTimeout],
       d ≤ ({ connState := .reconnecting, base := 1, cap := 8,
              delay := 1 } : Transport).cap) ∧
    ((Transport.step
        { connState := .connecting, base := 1, cap := 8, delay := 4 }
        .handshakeOk).connState = .connected ∧
     (Transport.step
        { connState := .connecting, base := 1, cap := 8, delay := 4 }
        .handshakeOk).delay =
      ({ connState := .connecting, base := 1, cap := 8,
         delay := 4 } : Transport).base) :=
  ⟨(C6_backoff_monotone_capped_reset _ _ ⟨by decide, by decide, by decide⟩).1
      (by decide),
   (C6_backoff_monotone_capped_reset
      { connState := .connecting, base := 1, cap := 8, delay := 4 } []
      ⟨by decide, by decide, by decide⟩).2 rfl⟩

/-- C10: when preparation succeeds, `call_after_hooks` runs exactly once —
also when the command callback raises (any exception kind) or is
cancelled. -/
theorem C10_after_hooks_run_once (prep cb : PyOutcome Unit)
    (hprep : prep = .ok ()) :
    (ApplicationCommand.invoke prep cb).afterHookRuns = 1 := by
  subst hprep
  rcases cb with v | e | _
  · rfl
  · simp only [ApplicationCommand.invoke, hooked_wrapped_callback]
    split <;> rfl
  · rfl

/-- C10 witness: the callback raising a non-`ApplicationCommandError`
exception still runs the after-hooks exactly once. -/
theorem C10_after_hooks_run_once_witness :
    (ApplicationCommand.invoke (.ok ())
      (.error (.genericExc "boom"))).afterHookRuns = 1 :=
  C10_after_hooks_run_once _ _ rfl
